import Mathlib

/-!
Shallow embedding of YaTTi (src/lib.rs, src/main.rs), a terminal tap-tempo
estimator built around a bounded FIFO window of hit timestamps
(`RegisteredHits`), together with proofs of the specified properties.

Modelling conventions:
- `Instant` (Rust `std::time::Instant`, an opaque monotonic clock reading)
  is modelled as a `Nat` of nanoseconds since an arbitrary epoch.
- `Duration` (Rust `std::time::Duration`) is a `Nat` of nanoseconds;
  `Instant::duration_since` is truncated subtraction (it never goes below
  zero), and `Duration::checked_div` is flooring division guarded against a
  zero divisor, exactly as in the Rust standard library.
- `VecDeque<Instant>` is a `List Instant` with `push_back` appending at the
  tail and `pop_front` dropping the head.
- `Instant::now()` is read inside `new_hit` in the source; the model takes
  the current instant as an explicit argument so that the state machine is
  driven by synthetic clocks, as the spec itself prescribes for testability.
- `process_tempo` computes over `f64` in the source; the model computes the
  same expression over `ℚ`. For the concrete values the claims evaluate it
  at, the `f64` computation is exact and agrees with the rational one.
-/

namespace YaTTi

/-- A monotonic clock reading, in nanoseconds since an arbitrary epoch. -/
abbrev Instant := Nat

/-- A time span, in nanoseconds. -/
abbrev Duration := Nat

/-- Rust `Duration::checked_div(self, rhs: u32)`: `None` when the divisor is
zero, otherwise the (flooring) quotient. -/
def checked_div (d : Duration) (rhs : Nat) : Option Duration :=
  if rhs = 0 then none else some (d / rhs)

/-- Rust `Instant::duration_since(self, earlier)`: the span from `earlier` to
`self`, never below zero. -/
def duration_since (later earlier : Instant) : Duration :=
  later - earlier

/-- The struct `RegisteredHits` of src/lib.rs: a `VecDeque` of hit instants
(oldest first) plus the configured window capacity `sample_size`. -/
structure RegisteredHits where
  hits : List Instant
  sample_size : Nat
deriving DecidableEq, Repr

/-- `RegisteredHits::new(sample_size)`: rejects a sample size lower than or
equal to one, otherwise yields a window with an empty hit queue. -/
def RegisteredHits.new (sample_size : Nat) : Except String RegisteredHits :=
  if sample_size ≤ 1 then
    .error "sample size must be at least two."
  else
    .ok { hits := [], sample_size := sample_size }

/-- `RegisteredHits::new_hit(&mut self)`: push the current instant at the
back, then pop the front element if the queue now exceeds `sample_size`. -/
def RegisteredHits.new_hit (s : RegisteredHits) (now : Instant) : RegisteredHits :=
  let hits := s.hits ++ [now]
  if hits.length > s.sample_size then
    { s with hits := hits.tail }
  else
    { s with hits := hits }

/-- `RegisteredHits::reset_hits(&mut self)`: clear the hit queue. -/
def RegisteredHits.reset_hits (s : RegisteredHits) : RegisteredHits :=
  { s with hits := [] }

/-- `<RegisteredHits as Iterator>::next(&mut self)`: `None` on a queue of at
most one hit; otherwise the span from the front (oldest) to the back (newest)
hit, `checked_div`-ided by `len - 1`. The Rust method takes `&mut self` but
its body never writes a field, so the model returns the result paired with
the (unchanged) state. -/
def RegisteredHits.next (s : RegisteredHits) : Option Duration × RegisteredHits :=
  if s.hits.length ≤ 1 then
    (none, s)
  else
    let duration : Option Duration := do
      let back ← s.hits.getLast?
      let front ← s.hits.head?
      checked_div (duration_since back front) (s.hits.length - 1)
    (duration, s)

/-- Rust `Duration::as_secs_f64`, over `ℚ`: nanoseconds divided by 10^9. -/
def as_secs_f64 (d : Duration) : ℚ :=
  (d : ℚ) / 1000000000

/-- `process_tempo(duration)` of src/lib.rs, over `ℚ`:
`(1 / duration.as_secs_f64()) * 60`. -/
def process_tempo (duration : Duration) : ℚ :=
  (1 / as_secs_f64 duration) * 60

/-- A whole sequence of recorded hits: fold `new_hit` over the given
timestamps, oldest first. -/
def RegisteredHits.record_all (s : RegisteredHits) (ts : List Instant) : RegisteredHits :=
  ts.foldl RegisteredHits.new_hit s

/-- The terminal events the `run` loop of src/lib.rs distinguishes: a
character key, the Enter key, the Esc key, any other key, and any non-key
event (resize, mouse, ...). -/
inductive Event where
  | keyChar (c : Char)
  | keyEnter
  | keyEsc
  | keyOther
  | nonKey
deriving DecidableEq, Repr

/-- The event loop of `run` (src/lib.rs lines 30-67), folded over a list of
events paired with the instant at which each arrives. On `'q'` or Esc the
loop breaks; on any other character or Enter it registers a hit and then
calls `next` on the window to display the tempo; on any other event it
continues without touching the window. The source loop never invokes
`reset_hits` and never reads `config.reset_time`, so neither appears here. -/
def runEvents (s : RegisteredHits) : List (Event × Instant) → RegisteredHits
  | [] => s
  | (e, t) :: rest =>
    match e with
    | .keyChar c =>
      if c = 'q' then s
      else runEvents ((s.new_hit t).next).2 rest
    | .keyEnter => runEvents ((s.new_hit t).next).2 rest
    | .keyEsc => s
    | .keyOther => runEvents s rest
    | .nonKey => runEvents s rest

/-! Helper lemmas about the embedded operations. -/

/-- A successful construction yields an empty queue with the requested
sample size. -/
theorem new_ok {c : Nat} {s : RegisteredHits}
    (h : RegisteredHits.new c = .ok s) : s.hits = [] ∧ s.sample_size = c := by
  unfold RegisteredHits.new at h
  split at h
  · simp at h
  · cases h
    exact ⟨rfl, rfl⟩

/-- Recording a hit never changes the configured sample size. -/
theorem new_hit_sample_size (s : RegisteredHits) (t : Instant) :
    (s.new_hit t).sample_size = s.sample_size := by
  unfold RegisteredHits.new_hit
  dsimp only
  split <;> rfl

/-- One step of `new_hit`, as a drop of the appended queue: when the queue is
within capacity, the new queue is the appended one with `len + 1 - capacity`
elements (that is, zero or one) removed from the front. -/
theorem new_hit_hits (s : RegisteredHits) (t : Instant)
    (h : s.hits.length ≤ s.sample_size) :
    (s.new_hit t).hits = (s.hits ++ [t]).drop (s.hits.length + 1 - s.sample_size) := by
  unfold RegisteredHits.new_hit
  dsimp only
  split
  · next hgt =>
    simp only [List.length_append, List.length_cons, List.length_nil] at hgt
    have h1 : s.hits.length + 1 - s.sample_size = 1 := by omega
    rw [h1, List.drop_one]
  · next hle =>
    simp only [List.length_append, List.length_cons, List.length_nil] at hle
    have h0 : s.hits.length + 1 - s.sample_size = 0 := by omega
    rw [h0, List.drop_zero]

/-- Recording a whole sequence never changes the configured sample size. -/
theorem record_all_sample_size (ts : List Instant) : ∀ s : RegisteredHits,
    (s.record_all ts).sample_size = s.sample_size := by
  induction ts with
  | nil => intro s; rfl
  | cons t ts ih =>
    intro s
    show ((s.new_hit t).record_all ts).sample_size = s.sample_size
    rw [ih, new_hit_sample_size]

/-- The queue after recording a whole sequence is the old queue with the new
timestamps appended, truncated from the front to the capacity. -/
theorem record_all_hits (ts : List Instant) : ∀ s : RegisteredHits,
    s.hits.length ≤ s.sample_size →
    (s.record_all ts).hits
      = (s.hits ++ ts).drop (s.hits.length + ts.length - s.sample_size) := by
  induction ts with
  | nil =>
    intro s h
    simp only [RegisteredHits.record_all, List.foldl_nil, List.append_nil,
      List.length_nil, Nat.add_zero]
    have h0 : s.hits.length - s.sample_size = 0 := by omega
    rw [h0, List.drop_zero]
  | cons t ts ih =>
    intro s h
    have hhits := new_hit_hits s t h
    have hss := new_hit_sample_size s t
    have hlen2 : (s.new_hit t).hits.length ≤ (s.new_hit t).sample_size := by
      rw [hhits, hss, List.length_drop]
      simp only [List.length_append, List.length_cons, List.length_nil]
      omega
    have hmain := ih (s.new_hit t) hlen2
    rw [hhits, hss] at hmain
    show ((s.new_hit t).record_all ts).hits = _
    rw [hmain]
    have hz : s.hits.length + 1 - s.sample_size - (s.hits ++ [t]).length = 0 := by
      simp only [List.length_append, List.length_cons, List.length_nil]
      omega
    have hsplit : ((s.hits ++ [t]) ++ ts).drop (s.hits.length + 1 - s.sample_size)
        = (s.hits ++ [t]).drop (s.hits.length + 1 - s.sample_size) ++ ts := by
      rw [List.drop_append_eq_append_drop, hz, List.drop_zero]
    rw [← hsplit, List.drop_drop]
    have hidx : s.hits.length + 1 - s.sample_size
        + (((s.hits ++ [t]).drop (s.hits.length + 1 - s.sample_size)).length
            + ts.length - s.sample_size)
        = s.hits.length + (t :: ts).length - s.sample_size := by
      rw [List.length_drop]
      simp only [List.length_append, List.length_cons, List.length_nil]
      omega
    rw [hidx]
    have happ : (s.hits ++ [t]) ++ ts = s.hits ++ t :: ts := by
      simp
    rw [happ]

/-- For a freshly constructed window, the queue after recording `ts` is
exactly the last `capacity` of `ts` (all of `ts` when it is shorter). -/
theorem record_all_hits_of_new {c : Nat} {s : RegisteredHits}
    (hnew : RegisteredHits.new c = .ok s) (ts : List Instant) :
    (s.record_all ts).hits = ts.drop (ts.length - c) := by
  obtain ⟨h1, h2⟩ := new_ok hnew
  have hmain := record_all_hits ts s (by rw [h1]; simp)
  simpa [h1, h2] using hmain

/-- With at least two hits queued, `next` yields the span from the oldest to
the newest hit divided by one less than the queue length. -/
theorem next_spec (s : RegisteredHits) (f l : Instant)
    (h2 : 2 ≤ s.hits.length)
    (hf : s.hits.head? = some f) (hl : s.hits.getLast? = some l) :
    (s.next).1 = some ((l - f) / (s.hits.length - 1)) := by
  unfold RegisteredHits.next
  rw [if_neg (by omega)]
  have hd : s.hits.length - 1 ≠ 0 := by omega
  simp [hl, hf, checked_div, duration_since, hd]

/-- A nonempty queue has a front and a back element. -/
theorem hits_head_getLast (s : RegisteredHits) (h : s.hits ≠ []) :
    ∃ f l, s.hits.head? = some f ∧ s.hits.getLast? = some l := by
  obtain ⟨f, hf⟩ := Option.isSome_iff_exists.mp (List.head?_isSome.mpr h)
  obtain ⟨l, hl⟩ := Option.isSome_iff_exists.mp (List.getLast?_isSome.mpr h)
  exact ⟨f, l, hf, hl⟩

/-! Claim theorems. -/

/-- C1: for every window holding n ≥ 2 samples, `next` (the estimator)
returns the elapsed time between the oldest and the newest retained sample
divided by n − 1 — the mean inter-hit interval over the window — and in
particular, for a window of capacity 5 after recording timestamps at 0 ms,
100 ms, 200 ms, 300 ms and 400 ms, it returns a mean interval of 100 ms
(100000000 ns), whose BPM conversion `process_tempo` equals 600. -/
theorem mean_interval_estimate :
    (∀ (s : RegisteredHits) (f l : Instant), 2 ≤ s.hits.length →
      s.hits.head? = some f → s.hits.getLast? = some l →
      (s.next).1 = some ((l - f) / (s.hits.length - 1)))
    ∧ ((RegisteredHits.record_all ⟨[], 5⟩
        [0, 100000000, 200000000, 300000000, 400000000]).next).1 = some 100000000
    ∧ process_tempo 100000000 = 600 := by
  refine ⟨fun s f l h2 hf hl => next_spec s f l h2 hf hl, by decide, ?_⟩
  norm_num [process_tempo, as_secs_f64]

/-- Witness for C1: a two-sample window at instants 0 and 7 yields the mean
interval (7 − 0) / (2 − 1). -/
theorem mean_interval_estimate_witness :
    ((RegisteredHits.mk [0, 7] 5).next).1
      = some ((7 - 0) / ((RegisteredHits.mk [0, 7] 5).hits.length - 1)) :=
  mean_interval_estimate.1 ⟨[0, 7], 5⟩ 0 7 (by decide) (by rfl) (by rfl)

/-- C2: for every sequence of recorded hits on a window constructed with
capacity c ≥ 2, the queue length stays between 0 and c after every call
(every intermediate state is `record_all` of a prefix, and the sequence is
universally quantified). -/
theorem capacity_invariant (c : Nat) (s : RegisteredHits) (ts : List Instant)
    (hc : 2 ≤ c) (hnew : RegisteredHits.new c = .ok s) :
    0 ≤ (s.record_all ts).hits.length ∧ (s.record_all ts).hits.length ≤ c := by
  refine ⟨Nat.zero_le _, ?_⟩
  rw [record_all_hits_of_new hnew ts, List.length_drop]
  omega

/-- Witness for C2: capacity 2, three hits recorded, queue length is at
most 2. -/
theorem capacity_invariant_witness :
    0 ≤ ((RegisteredHits.mk [] 2).record_all [1, 2, 3]).hits.length
    ∧ ((RegisteredHits.mk [] 2).record_all [1, 2, 3]).hits.length ≤ 2 :=
  capacity_invariant 2 ⟨[], 2⟩ [1, 2, 3] (by decide) (by rfl)

/-- C3: strict FIFO eviction — after inserting `c + k` samples (k ≥ 0) into
a freshly constructed window of capacity c, the retained samples are exactly
the last c inserted, in original insertion order, and the queue holds
exactly c of them. -/
theorem fifo_eviction (c : Nat) (s : RegisteredHits) (ts : List Instant)
    (hnew : RegisteredHits.new c = .ok s) (hk : c ≤ ts.length) :
    (s.record_all ts).hits = ts.drop (ts.length - c)
    ∧ (s.record_all ts).hits.length = c := by
  refine ⟨record_all_hits_of_new hnew ts, ?_⟩
  rw [record_all_hits_of_new hnew ts, List.length_drop]
  omega

/-- Witness for C3: capacity 2, hits at 3, 4, 7; the queue retains [4, 7]. -/
theorem fifo_eviction_witness :
    ((RegisteredHits.mk [] 2).record_all [3, 4, 7]).hits
        = ([3, 4, 7] : List Instant).drop (([3, 4, 7] : List Instant).length - 2)
    ∧ ((RegisteredHits.mk [] 2).record_all [3, 4, 7]).hits.length = 2 :=
  fifo_eviction 2 ⟨[], 2⟩ [3, 4, 7] (by rfl) (by decide)

/-- C4: `next` returns `none` ("no estimate available") exactly when the
window holds zero or one sample; with two or more samples it returns a
present duration, never signalling absence by a default value. -/
theorem no_estimate_iff_too_few (s : RegisteredHits) :
    (s.next).1 = none ↔ s.hits.length ≤ 1 := by
  constructor
  · intro h
    by_contra hgt
    push_neg at hgt
    have hne : s.hits ≠ [] := by
      intro h0
      rw [h0] at hgt
      simp at hgt
    obtain ⟨f, l, hf, hl⟩ := hits_head_getLast s hne
    rw [next_spec s f l (by omega) hf hl] at h
    simp at h
  · intro h
    unfold RegisteredHits.next
    rw [if_pos h]

/-- C5: construction fails with the invalid-configuration error exactly when
the capacity is below 2; for every c ≥ 2 it succeeds and yields a window
with an empty sample queue. (`new_hit`, `next` and `reset_hits` are total
functions of the state, so this failure can only arise at construction.) -/
theorem construction_validation (c : Nat) :
    (c < 2 → RegisteredHits.new c = .error "sample size must be at least two.")
    ∧ (2 ≤ c → RegisteredHits.new c = .ok ⟨[], c⟩) := by
  constructor
  · intro h
    unfold RegisteredHits.new
    rw [if_pos (by omega)]
  · intro h
    unfold RegisteredHits.new
    rw [if_neg (by omega)]

/-- Witness for C5: capacities 0 and 1 are rejected, capacity 2 accepted. -/
theorem construction_validation_witness :
    RegisteredHits.new 0 = .error "sample size must be at least two."
    ∧ RegisteredHits.new 1 = .error "sample size must be at least two."
    ∧ RegisteredHits.new 2 = .ok ⟨[], 2⟩ :=
  ⟨(construction_validation 0).1 (by decide),
   (construction_validation 1).1 (by decide),
   (construction_validation 2).2 (by decide)⟩

/-- C6 counterexample: two hits at the identical instant 5 give a window of
two samples with zero elapsed time, and `next` returns the present zero
duration `some 0` — not `none` ("no estimate available") as the claim
states. -/
theorem zero_interval_counterexample :
    (RegisteredHits.next ⟨[5, 5], 5⟩).1 = some 0
    ∧ (RegisteredHits.next ⟨[5, 5], 5⟩).1 ≠ none := by
  exact ⟨by decide, by decide⟩

/-- C6 amended: the `checked_div` guard in `next` only protects against a
zero divisor (the sample count minus one, which cannot be zero once n ≥ 2);
for every window of n ≥ 2 samples whose oldest and newest timestamps
coincide, `next` returns the present zero duration `some 0`, so the
subsequent BPM division by zero seconds in `process_tempo` is unguarded. -/
theorem zero_interval_present (s : RegisteredHits) (f : Instant)
    (h2 : 2 ≤ s.hits.length)
    (hf : s.hits.head? = some f) (hl : s.hits.getLast? = some f) :
    (s.next).1 = some 0 := by
  rw [next_spec s f f h2 hf hl]
  simp

/-- Witness for the amended C6: two hits at instant 7. -/
theorem zero_interval_present_witness :
    ((RegisteredHits.mk [7, 7] 3).next).1 = some 0 :=
  zero_interval_present ⟨[7, 7], 3⟩ 7 (by decide) (by rfl) (by rfl)

/-- C7: the `run` event loop never invokes `reset_hits` and never reads
`config.reset_time`. With the default reset time of 5 s, two hits 10 s apart
(at 0 ns and 10000000000 ns) leave both timestamps in the window, and the
next estimate averages the 10 s gap into the tempo (`some 10000000000` ns)
instead of restarting from an empty window as the claim requires. -/
theorem run_ignores_idle_reset :
    (runEvents ⟨[], 5⟩ [(Event.keyChar 'a', 0), (Event.keyChar 'a', 10000000000)]).hits
      = [0, 10000000000]
    ∧ ((runEvents ⟨[], 5⟩
        [(Event.keyChar 'a', 0), (Event.keyChar 'a', 10000000000)]).next).1
      = some 10000000000 := by
  exact ⟨by decide, by decide⟩

/-- C8: `reset_hits` empties the queue, leaves the sample size unchanged, a
subsequent `next` returns `none`, it is idempotent, and on an already-empty
window it is a no-op. -/
theorem reset_spec (s : RegisteredHits) :
    (s.reset_hits).hits = []
    ∧ (s.reset_hits).sample_size = s.sample_size
    ∧ ((s.reset_hits).next).1 = none
    ∧ (s.reset_hits).reset_hits = s.reset_hits
    ∧ (s.hits = [] → s.reset_hits = s) := by
  refine ⟨rfl, rfl, rfl, rfl, ?_⟩
  intro h
  cases s
  simp_all [RegisteredHits.reset_hits]

/-- Witness for C8: resetting an empty window of capacity 3 is a no-op. -/
theorem reset_spec_witness :
    RegisteredHits.reset_hits ⟨[], 3⟩ = (⟨[], 3⟩ : RegisteredHits) :=
  (reset_spec ⟨[], 3⟩).2.2.2.2 rfl

/-- C9: for every sequence of recorded hits whose timestamps are
non-decreasing in observation order, the sample queue is sorted ascending at
every observation point (after any initial segment `pre` of the full
sequence `pre ++ suf`). -/
theorem monotone_sorted (c : Nat) (s : RegisteredHits) (pre suf : List Instant)
    (hc : 2 ≤ c) (hnew : RegisteredHits.new c = .ok s)
    (hsorted : (pre ++ suf).Sorted (· ≤ ·)) :
    ((s.record_all pre).hits).Sorted (· ≤ ·) := by
  have hpre : pre.Sorted (· ≤ ·) :=
    List.Pairwise.sublist (List.sublist_append_left pre suf) hsorted
  rw [record_all_hits_of_new hnew pre]
  exact List.Pairwise.sublist (List.drop_sublist _ _) hpre

/-- Witness for C9: capacity 2, hits at 1, 2, 3 out of the sorted sequence
1, 2, 3, 4; the retained queue is sorted. -/
theorem monotone_sorted_witness :
    (((RegisteredHits.mk [] 2).record_all [1, 2, 3]).hits).Sorted (· ≤ ·) :=
  monotone_sorted 2 ⟨[], 2⟩ [1, 2, 3] [4] (by decide) (by rfl) (by decide)

/-- C10: the estimator applies the non-consuming policy — `next` never
mutates the window state, so repeated calls without an intervening hit
return equal results. -/
theorem estimate_frame (s : RegisteredHits) :
    (s.next).2 = s ∧ (((s.next).2).next).1 = (s.next).1 := by
  have h : (s.next).2 = s := by
    unfold RegisteredHits.next
    split <;> rfl
  exact ⟨h, by rw [h]⟩

end YaTTi
